import Mathlib

/-!
Shallow embedding of `libs/gltfio/src/MorphHelper.{h,cpp}` (gltfio MorphHelper).

Weights (C `float`) are modelled as rationals.  `std::nth_element` with the
descending comparator is modelled by a full descending sort: the standard
guarantees that after the call the first four positions hold the four largest
values (as a multiset), and the only thing `applyWeights` ever observes about
the reordered scratch buffer is membership of a weight among those four front
values, which is the same for any reordering satisfying the `nth_element`
postcondition.  GPU objects are modelled by handles: each `VertexBuffer`
built gets the next free natural number.
-/

namespace Gltfio

/-- `static constexpr uint8_t kUnused = 0xff;` — the sentinel tuple entry. -/
def kUnused : ℕ := 255

/-- `filament::math::ubyte4`, the Primary Index Tuple representation. -/
structure Ubyte4 where
  x : ℕ
  y : ℕ
  z : ℕ
  w : ℕ
deriving DecidableEq

/-- Component access `t[i]` on a `ubyte4`. -/
def Ubyte4.get (t : Ubyte4) (i : Fin 4) : ℕ :=
  match i with
  | ⟨0, _⟩ => t.x
  | ⟨1, _⟩ => t.y
  | ⟨2, _⟩ => t.z
  | ⟨3, _⟩ => t.w
  | ⟨n + 4, h⟩ => absurd h (by omega)

/-- `filament::math::float4`, the 4-component morph-weight uniform. -/
structure Float4 where
  x : ℚ
  y : ℚ
  z : ℚ
  w : ℚ
deriving DecidableEq

/-- Component access `v[i]` on a `float4`. -/
def Float4.get (v : Float4) (i : Fin 4) : ℚ :=
  match i with
  | ⟨0, _⟩ => v.x
  | ⟨1, _⟩ => v.y
  | ⟨2, _⟩ => v.z
  | ⟨3, _⟩ => v.w
  | ⟨n + 4, h⟩ => absurd h (by omega)

/-- `count = std::min(count, size_t(255))` followed by reading
`weights[0..count)`: the weight array actually used by the slow path. -/
def clamped (ws : List ℚ) : List ℚ := ws.take 255

/-- The scratch vector `mPartiallySortedWeights` after
`std::nth_element(begin, begin + 4, end, greater)`, modelled by a full
descending sort (see the remark at the top of the file). -/
def sortedDesc (l : List ℚ) : List ℚ := List.insertionSort (fun a b => b ≤ a) l

/-- `while (sorted.size() < 4) sorted.push_back(-1);` — the sentinel pad. -/
def paddedSorted (l : List ℚ) : List ℚ :=
  sortedDesc l ++ List.replicate (4 - (sortedDesc l).length) (-1)

/-- The four values at the front of the partially sorted scratch buffer,
`sorted[0] .. sorted[3]`. -/
def frontVals (l : List ℚ) : List ℚ :=
  [(paddedSorted l).getD 0 0, (paddedSorted l).getD 1 0,
   (paddedSorted l).getD 2 0, (paddedSorted l).getD 3 0]

/-- The test of the primary-index scan:
`w > 0 && (w == sorted[0] || w == sorted[1] || w == sorted[2] || w == sorted[3])`. -/
def qualifies (l : List ℚ) (i : ℕ) : Bool :=
  decide (0 < l.getD i 0) && decide (l.getD i 0 ∈ frontVals l)

/-- All indices the scan test accepts, in scan (ascending index) order. -/
def qualIndices (l : List ℚ) : List ℕ :=
  (List.range l.length).filter (qualifies l)

/-- The indices the scan actually stores: it stops once
`primary == primaryCount` where `primaryCount = std::min(size_t(4), count)`. -/
def primaryIndexList (l : List ℚ) : List ℕ :=
  (qualIndices l).take (min 4 l.length)

/-- Packing up to four indices into a `ubyte4` initialised to
`{kUnused, kUnused, kUnused, kUnused}`. -/
def tupleOfList (L : List ℕ) : Ubyte4 :=
  ⟨L.getD 0 kUnused, L.getD 1 kUnused, L.getD 2 kUnused, L.getD 3 kUnused⟩

/-- The Primary Index Tuple computed by the slow path of `applyWeights`
for an (already clamped) weight array. -/
def primaryIndices (l : List ℚ) : Ubyte4 := tupleOfList (primaryIndexList l)

/-- The "safe set": `for (int i = 0; i < 4; i++) if (safe[i] == kUnused) safe[i] = 0;`. -/
def safeIndices (t : Ubyte4) : Ubyte4 :=
  ⟨if t.x = kUnused then 0 else t.x,
   if t.y = kUnused then 0 else t.y,
   if t.z = kUnused then 0 else t.z,
   if t.w = kUnused then 0 else t.w⟩

/-- Number of non-sentinel entries of a Primary Index Tuple. -/
def nonSentinelCount (t : Ubyte4) : ℕ :=
  ([t.x, t.y, t.z, t.w].countP (fun v => !(v == kUnused)))

/-- `MorphHelper::MorphKey`: the cache key, an entity handle bundled with a
Primary Index Tuple.  Entities are modelled as naturals. -/
structure MorphKey where
  targetEntity : ℕ
  primaryIndices : Ubyte4
deriving DecidableEq

/-- `MorphHelper::MorphKeyEqualFn::operator()`:
`k1.targetEntity == k2.targetEntity && k1.primaryIndices == k2.primaryIndices`
(`ubyte4` equality is componentwise). -/
def morphKeyEqualFn (k1 k2 : MorphKey) : Bool :=
  (k1.targetEntity == k2.targetEntity) && (k1.primaryIndices == k2.primaryIndices)

/-- `MorphHelper::Primitive`: a cache-value record holding the synthesized
vertex buffer (as a handle), the borrowed index buffer and the primitive
type. -/
structure Primitive where
  vertices : ℕ
  indices : ℕ
  type : ℕ
deriving DecidableEq

/-- The external collaborators of `applyWeights`, reduced to what the cache
logic observes per entity: its mesh's primitive count and, per primitive, the
borrowed index buffer handle and the primitive type (from `mMeshCache` /
`getPrimitiveType`). -/
structure Env where
  primCount : ℕ → ℕ
  indexBuffer : ℕ → ℕ → ℕ
  primType : ℕ → ℕ → ℕ

/-- The mutable state of a `MorphHelper`: the morph table
(`tsl::robin_map` modelled as an association list probed with
`morphKeyEqualFn`) and the next fresh `VertexBuffer` handle the engine will
hand out (handles are allocated sequentially, so the handles created over the
helper's lifetime are exactly `0 .. nextHandle - 1`). -/
structure CacheState where
  table : List (MorphKey × List Primitive)
  nextHandle : ℕ
deriving DecidableEq

/-- The empty state of a freshly constructed `MorphHelper`. -/
def initialState : CacheState := ⟨[], 0⟩

/-- `MorphHelper::createMorphTableEntry`: one `createVertexBuffer` call per
primitive of the entity's mesh; every built vertex buffer goes into the
returned `MorphValue`. -/
def createMorphTableEntry (env : Env) (entity : ℕ) (firstHandle : ℕ) :
    List Primitive :=
  (List.range (env.primCount entity)).map fun pi =>
    ⟨firstHandle + pi, env.indexBuffer entity pi, env.primType entity pi⟩

/-- What one `applyWeights` call did besides mutating the state: the morph
weight uniform it set, the primitives it bound via `setGeometryAt` (in
primitive order), and the vertex-buffer handles it created. -/
structure ApplyEffects where
  uniform : Float4
  bound : List Primitive
  created : List ℕ
deriving DecidableEq

/-- The cache key computed by the slow path of `applyWeights`. -/
def keyOf (entity : ℕ) (weights : List ℚ) : MorphKey :=
  ⟨entity, primaryIndices (clamped weights)⟩

/-- The 4-component uniform the slow path sets: the original weight array
dereferenced at the safe indices. -/
def slowUniform (weights : List ℚ) : Float4 :=
  let safe := safeIndices (primaryIndices (clamped weights))
  ⟨weights.getD safe.x 0, weights.getD safe.y 0,
   weights.getD safe.z 0, weights.getD safe.w 0⟩

/-- The `count > 4` path of `applyWeights`: clamp, select, probe the morph
table (synthesizing and inserting a new entry on miss), bind the entry's
primitives, set the uniform. -/
def slowPath (env : Env) (s : CacheState) (entity : ℕ) (weights : List ℚ) :
    CacheState × ApplyEffects :=
  match s.table.find? (fun e => morphKeyEqualFn e.1 (keyOf entity weights)) with
  | some entry => (s, ⟨slowUniform weights, entry.2, []⟩)
  | none =>
      let v := createMorphTableEntry env entity s.nextHandle
      (⟨s.table ++ [(keyOf entity weights, v)], s.nextHandle + env.primCount entity⟩,
       ⟨slowUniform weights, v,
        (List.range (env.primCount entity)).map (s.nextHandle + ·)⟩)

/-- `MorphHelper::applyWeights(entity, weights, count)` with
`count = weights.length`.  Returns the new state and the call's effects. -/
def applyWeights (env : Env) (s : CacheState) (entity : ℕ) (weights : List ℚ) :
    CacheState × ApplyEffects :=
  if weights.length ≤ 4 then
    -- four or fewer targets: re-use the original vertex buffer, write the
    -- weights verbatim into a zero-initialised float4
    (s, ⟨⟨weights.getD 0 0, weights.getD 1 0, weights.getD 2 0, weights.getD 3 0⟩,
         [], []⟩)
  else slowPath env s entity weights

/-- A whole session: a sequence of `applyWeights` calls against one helper. -/
def runCalls (env : Env) (s : CacheState) : List (ℕ × List ℚ) → CacheState
  | [] => s
  | (entity, ws) :: rest => runCalls env (applyWeights env s entity ws).1 rest

/-- The vertex-buffer handles reachable from the morph table. -/
def handlesOf (table : List (MorphKey × List Primitive)) : List ℕ :=
  table.flatMap fun e => e.2.map Primitive.vertices

/-- `MorphHelper::~MorphHelper()`: the handles passed to `engine->destroy`,
one per `Primitive` of every cache entry, in table order. -/
def destroyList (s : CacheState) : List ℕ := handlesOf s.table

/-! ## The vertex-buffer synthesizer, `MorphHelper::createVertexBuffer` -/

/-- `cgltf_attribute_type` (the values this routine distinguishes). -/
inductive AType
  | invalid
  | position
  | normal
  | tangent
  | texcoord
  | color
  | joints
  | weights
deriving DecidableEq

/-- The fields of a `cgltf_accessor` this routine reads. -/
structure Accessor where
  count : ℕ
  stride : ℕ
  normalized : Bool
  componentType : ℕ
  elemType : ℕ
deriving DecidableEq, Inhabited

/-- A `cgltf_attribute`: semantic type, set index (`TEXCOORD_n`), and its
accessor (`data` is a pointer, hence possibly null). -/
structure Attribute where
  type : AType
  index : ℕ
  data : Option Accessor
deriving DecidableEq

/-- One `cgltf_morph_target`: its attribute list. -/
structure MorphTarget where
  attributes : List Attribute
deriving DecidableEq, Inhabited

/-- The fields of a `cgltf_material` this routine reads. -/
structure Material where
  unlit : Bool
deriving DecidableEq

/-- The fields of a `cgltf_primitive` this routine reads. -/
structure Prim where
  attributes : List Attribute
  targets : List MorphTarget
  material : Option Material
deriving DecidableEq

/-- `filament::VertexAttribute` semantics used by the synthesizer. -/
inductive Semantic
  | position
  | tangents
  | color
  | uv0
  | uv1
  | boneIndices
  | boneWeights
  | custom
  | morphPositionAt (ordinal : ℕ)
  | morphTangentsAt (ordinal : ℕ)
deriving DecidableEq

/-- `filament::VertexBuffer::AttributeType` as the synthesizer uses it:
the three fixed formats it names plus the format derived from an accessor by
`getElementType` (a fixed translation of component type and cardinality). -/
inductive Fmt
  | short4
  | ushort2
  | ubyte4fmt
  | fromAccessor (elemType componentType : ℕ)
deriving DecidableEq

/-- One `vbb.attribute(semantic, slot, fatype, 0, stride)` declaration plus
its `vbb.normalized(semantic, ...)` flag. -/
structure AttrDecl where
  semantic : Semantic
  slot : ℕ
  fmt : Fmt
  stride : ℕ
  normalized : Bool
deriving DecidableEq

/-- The buffer descriptor placed in `buffers[slot]`: a deep copy of an
accessor's bytes (`createBufferDescriptor`), a tangent-space buffer from the
tangents job (`createTangentsBuffer`, with its morph-target argument), or the
shared dummy buffer (`createDummyBuffer`, carrying its byte contents). -/
inductive BufDesc
  | copyBuf (a : Accessor)
  | tangentsBuf (morphTarget : Option ℕ)
  | dummyBuf (bytes : List ℕ)
deriving DecidableEq

/-- Whether a descriptor is the dummy buffer. -/
def BufDesc.isDummy : BufDesc → Bool
  | .dummyBuf _ => true
  | _ => false

/-- `uvmap[index]` entries (`UvSet`). -/
inductive UvSet
  | uv0
  | uv1
  | unusedSet
deriving DecidableEq

/-- `UvMapSize`, the size of the `UvMap` array. -/
def UvMapSize : ℕ := 8

/-- Modelled from the spec: `getNumUvSets` lives in gltfio code outside this
excerpt; per the spec the synthesizer only asks whether the externally
supplied UV-remap table "declares zero active UV sets overall", so it is
modelled as the number of entries of the table that are not `UNUSED`. -/
def getNumUvSets (uvmap : ℕ → UvSet) : ℕ :=
  ((List.range UvMapSize).filter fun i => uvmap i ≠ UvSet.unusedSet).length

/-- Modelled from the spec: `getVertexAttrType` (GltfEnums.h, outside this
excerpt) translates a glTF attribute semantic to the engine semantic; per the
spec every attribute other than normals/tangents/texcoords "binds directly"
under its own semantic, and texcoords get their final semantic from the
UV-remap table afterwards. -/
def getVertexAttrType : AType → Semantic
  | .position => .position
  | .texcoord => .uv0
  | .color => .color
  | .joints => .boneIndices
  | .weights => .boneWeights
  | _ => .custom

/-- The running state of the synthesizer's slot bookkeeping:
`hasUv0/hasUv1/hasVertexColor/hasNormals`, the next free `slot`, the
attribute declarations issued so far and the `buffers[]` assignments made so
far (`(slot, descriptor)` in program order). -/
structure VBState where
  hasUv0 : Bool
  hasUv1 : Bool
  hasVertexColor : Bool
  hasNormals : Bool
  slot : ℕ
  decls : List AttrDecl
  bufs : List (ℕ × BufDesc)
deriving DecidableEq

/-- The state at the top of the attribute loop. -/
def initVBState : VBState := ⟨false, false, false, false, 0, [], []⟩

/-- Append one declaration/buffer pair at the current slot and advance it. -/
def VBState.push (st : VBState) (d : AttrDecl) (b : BufDesc) : VBState :=
  { st with decls := st.decls ++ [d], bufs := st.bufs ++ [(st.slot, b)],
            slot := st.slot + 1 }

/-- One iteration of the loop over `prim.attributes` (steps 2 of the spec):
tangents are skipped, normals become a regenerated tangent-space slot,
texcoords go through the UV remap table (with the UV0 promotion fallback),
everything else binds directly. -/
def stepAttr (uvmap : ℕ → UvSet) (st : VBState) (attr : Attribute) : VBState :=
  match attr.type with
  | .tangent => st
  | .normal =>
      { st.push ⟨.tangents, st.slot, .short4, 0, true⟩ (.tangentsBuf none) with
        hasNormals := true }
  | atype =>
      let a := attr.data.getD default
      let st1 := if atype = AType.color then { st with hasVertexColor := true } else st
      let bindAs (sem : Semantic) (st2 : VBState) : VBState :=
        st2.push ⟨sem, st2.slot, .fromAccessor a.elemType a.componentType,
                  a.stride, a.normalized⟩ (.copyBuf a)
      if atype = AType.texcoord then
        if UvMapSize ≤ attr.index then st1
        else
          match uvmap attr.index with
          | .uv0 => bindAs .uv0 { st1 with hasUv0 := true }
          | .uv1 => bindAs .uv1 { st1 with hasUv1 := true }
          | .unusedSet =>
              if !st1.hasUv0 && getNumUvSets uvmap == 0 then
                bindAs .uv0 { st1 with hasUv0 := true }
              else st1
      else bindAs (getVertexAttrType atype) st1

/-- The loop over the primitive's base attributes. -/
def baseState (prim : Prim) (uvmap : ℕ → UvSet) : VBState :=
  prim.attributes.foldl (stepAttr uvmap) initVBState

/-- Step 3: `if (prim.material && !prim.material->unlit && !hasNormals)`
regenerate flat tangents. -/
def flatNormalsStep (prim : Prim) (st : VBState) : VBState :=
  match prim.material with
  | none => st
  | some m =>
      if !m.unlit && !st.hasNormals then
        st.push ⟨.tangents, st.slot, .short4, 0, true⟩ (.tangentsBuf none)
      else st

/-- The `(targetCount, targetIndex)` pairs the morph-target loop visits: the
tuple's components in order, stopping at the first `kUnused` sentinel. -/
def targetsToProcess (t : Ubyte4) : List (ℕ × ℕ) :=
  ([t.x, t.y, t.z, t.w].takeWhile fun v => v ≠ kUnused).enum

/-- One iteration over a morph target's attributes (step 4): tangents are
skipped, a normal delta becomes the target-ordinal tangent slot, any other
attribute binds to the target-ordinal position-delta slot. -/
def stepTargetAttr (ordinal targetIndex : ℕ) (st : VBState) (attr : Attribute) :
    VBState :=
  match attr.type with
  | .tangent => st
  | .normal =>
      st.push ⟨.morphTangentsAt ordinal, st.slot, .short4, 0, true⟩
        (.tangentsBuf (some targetIndex))
  | _ =>
      let a := attr.data.getD default
      st.push ⟨.morphPositionAt ordinal, st.slot,
               .fromAccessor a.elemType a.componentType, a.stride, a.normalized⟩
        (.copyBuf a)

/-- The loop over the selected morph targets. -/
def targetsStep (prim : Prim) (t : Ubyte4) (st : VBState) : VBState :=
  (targetsToProcess t).foldl
    (fun st2 p =>
      (prim.targets.getD p.2 default).attributes.foldl
        (stepTargetAttr p.1 p.2) st2)
    st

/-- The synthesizer state after steps 2-4, just before the dummy pass. -/
def mainState (prim : Prim) (uvmap : ℕ → UvSet) (t : Ubyte4) : VBState :=
  targetsStep prim t (flatNormalsStep prim (baseState prim uvmap))

/-- The vertex count: the `count` of the first attribute whose accessor is
non-null, else 0. -/
def vertexCountOf (prim : Prim) : ℕ :=
  (prim.attributes.findSome? fun a => a.data.map Accessor.count).getD 0

/-- `createDummyBuffer`: `malloc(sizeof(ubyte4) * vertexCount)` filled by
`memset(dummyData, 0xff, size)` — the byte contents of the shared dummy. -/
def dummyBytes (vertexCount : ℕ) : List ℕ := List.replicate (4 * vertexCount) 255

/-- The `needsDummyData` flag at the end of the fallback pass: whether any of
UV0, UV1 or vertex color is still missing. -/
def needsDummy (st : VBState) : Bool :=
  !st.hasUv0 || !st.hasUv1 || !st.hasVertexColor

/-- Step 5, the fallback/dummy pass: declare UV0/UV1/COLOR at the current
slot for each missing flag (without advancing the slot), then, if any was
missing, assign the single shared dummy buffer to that slot and advance. -/
def dummyPass (vertexCount : ℕ) (st : VBState) : VBState :=
  let needs := needsDummy st
  let d0 := if st.hasUv0 then [] else [AttrDecl.mk .uv0 st.slot .ushort2 0 true]
  let d1 := if st.hasUv1 then [] else [AttrDecl.mk .uv1 st.slot .ushort2 0 true]
  let d2 := if st.hasVertexColor then []
            else [AttrDecl.mk .color st.slot .ubyte4fmt 0 true]
  let st3 := { st with decls := st.decls ++ d0 ++ d1 ++ d2 }
  if needs then
    { st3 with bufs := st3.bufs ++ [(st3.slot, .dummyBuf (dummyBytes vertexCount))],
               slot := st3.slot + 1 }
  else st3

/-- What `MorphHelper::createVertexBuffer` hands to the engine: the attribute
declarations, the `buffers[]` assignments, `bufferCount` (the final slot
counter) and the vertex count. -/
structure VBOut where
  decls : List AttrDecl
  bufs : List (ℕ × BufDesc)
  bufferCount : ℕ
  vertexCount : ℕ
deriving DecidableEq

/-- The whole of `MorphHelper::createVertexBuffer` for one primitive. -/
def createVertexBufferModel (prim : Prim) (uvmap : ℕ → UvSet) (t : Ubyte4) :
    VBOut :=
  let st := dummyPass (vertexCountOf prim) (mainState prim uvmap t)
  ⟨st.decls, st.bufs, st.slot, vertexCountOf prim⟩

/-- `kMaxBufferCount`, the size of the fixed `buffers[]` array. -/
def kMaxBufferCount : ℕ := 16

/-! ## Invariant predicates and concrete fixtures -/

/-- Slot discipline: the `buffers[]` assignments made so far occupy exactly
slots `0 .. slot - 1`, in order. -/
def slotsOk (st : VBState) : Prop :=
  st.bufs.map Prod.fst = List.range st.slot

/-- No dummy descriptor has been assigned. -/
def dummyFree (st : VBState) : Prop :=
  st.bufs.countP (fun p => p.2.isDummy) = 0

/-- A small concrete environment for witnesses: every entity's mesh has one
primitive. -/
def envW : Env := ⟨fun _ => 1, fun _ _ => 100, fun _ _ => 7⟩

/-- A UV remap table with no active UV sets. -/
def uvAllUnused : ℕ → UvSet := fun _ => UvSet.unusedSet

/-- The all-sentinel Primary Index Tuple. -/
def tSentinel : Ubyte4 := ⟨255, 255, 255, 255⟩

/-- A primitive with a single POSITION attribute (one vertex) and no
material: UV0, UV1 and vertex color all end up missing. -/
def primC7 : Prim := ⟨[⟨AType.position, 0, some ⟨1, 12, false, 5, 4⟩⟩], [], none⟩

/-- A primitive with 17 directly bound attributes: more slots than the fixed
`buffers[kMaxBufferCount]` array has. -/
def primC8 : Prim :=
  ⟨List.replicate 17 ⟨AType.joints, 0, some ⟨1, 4, false, 2, 3⟩⟩, [], none⟩

instance : IsTotal ℚ (fun a b => b ≤ a) := ⟨fun a b => le_total b a⟩

instance : IsTrans ℚ (fun a b => b ≤ a) := ⟨fun _ _ _ h1 h2 => le_trans h2 h1⟩

instance : IsAntisymm ℕ (fun a b : ℕ => a < b) :=
  ⟨fun _ _ h1 h2 => absurd h2 (Nat.lt_asymm h1)⟩

/-! ## Supporting lemmas -/

theorem Ubyte4.get_zero (t : Ubyte4) : t.get 0 = t.x := rfl

theorem Ubyte4.get_one (t : Ubyte4) : t.get 1 = t.y := rfl

theorem Ubyte4.get_two (t : Ubyte4) : t.get 2 = t.z := rfl

theorem Ubyte4.get_three (t : Ubyte4) : t.get 3 = t.w := rfl

theorem Ubyte4.eq_iff_get (t1 t2 : Ubyte4) :
    t1 = t2 ↔ ∀ i : Fin 4, t1.get i = t2.get i := by
  obtain ⟨a1, b1, c1, d1⟩ := t1
  obtain ⟨a2, b2, c2, d2⟩ := t2
  constructor
  · intro h i
    rw [h]
  · intro h
    have h0 := h 0
    have h1 := h 1
    have h2 := h 2
    have h3 := h 3
    simp only [Ubyte4.get_zero, Ubyte4.get_one, Ubyte4.get_two,
      Ubyte4.get_three] at h0 h1 h2 h3
    simp [h0, h1, h2, h3]

/-! ## C4: cache-key equality is exact-order tuple equality -/

/-- C4: `MorphKeyEqualFn` deems two cache keys equal exactly when their
target entities are equal and their Primary Index Tuples agree component by
component in position order; in particular the same indices in a different
order give distinct keys. -/
theorem morphKey_equality_exact_order :
    (∀ k1 k2 : MorphKey, morphKeyEqualFn k1 k2 = true ↔
      (k1.targetEntity = k2.targetEntity ∧
        ∀ i : Fin 4, k1.primaryIndices.get i = k2.primaryIndices.get i))
    ∧ morphKeyEqualFn ⟨7, ⟨1, 3, 255, 255⟩⟩ ⟨7, ⟨3, 1, 255, 255⟩⟩ = false := by
  constructor
  · intro k1 k2
    simp only [morphKeyEqualFn, Bool.and_eq_true, beq_iff_eq,
      ← Ubyte4.eq_iff_get]
  · decide

/-! ## Bounds on the primary indices -/

theorem mem_qualIndices_lt {l : List ℚ} {i : ℕ} (h : i ∈ qualIndices l) :
    i < l.length := by
  have := List.mem_filter.mp h
  exact List.mem_range.mp this.1

theorem mem_primaryIndexList_lt {l : List ℚ} {i : ℕ}
    (h : i ∈ primaryIndexList l) : i < l.length :=
  mem_qualIndices_lt (List.take_subset _ _ h)

theorem primaryIndices_get_eq (l : List ℚ) (i : Fin 4) :
    (primaryIndices l).get i = (primaryIndexList l).getD i.val kUnused := by
  fin_cases i <;> rfl

theorem safeIndices_get_eq (t : Ubyte4) (i : Fin 4) :
    (safeIndices t).get i = if t.get i = kUnused then 0 else t.get i := by
  fin_cases i <;> rfl

theorem primaryIndices_get_lt {l : List ℚ} {i : Fin 4}
    (h : (primaryIndices l).get i ≠ kUnused) :
    (primaryIndices l).get i < l.length := by
  rw [primaryIndices_get_eq] at h ⊢
  by_cases hlen : i.val < (primaryIndexList l).length
  · rw [List.getD_eq_getElem _ _ hlen]
    exact mem_primaryIndexList_lt (List.getElem_mem hlen)
  · rw [List.getD_eq_default _ _ (le_of_not_lt hlen)] at h
    exact absurd rfl h

theorem safeIndices_primary_lt (l : List ℚ) (hl : l.length ≤ 255) (i : Fin 4) :
    (safeIndices (primaryIndices l)).get i < 255 := by
  rw [safeIndices_get_eq]
  by_cases h : (primaryIndices l).get i = kUnused
  · rw [if_pos h]
    omega
  · rw [if_neg h]
    exact lt_of_lt_of_le (primaryIndices_get_lt h) hl

theorem length_clamped_le (ws : List ℚ) : (clamped ws).length ≤ 255 := by
  rw [clamped, List.length_take]
  omega

/-! ## C3: the fast path (count <= 4) -/

/-- C3: with at most four weights, `applyWeights` leaves the morph table
untouched, synthesizes nothing, binds nothing, and writes the weights
verbatim (zero-padded) into the 4-component uniform. -/
theorem applyWeights_fast_path (env : Env) (s : CacheState) (entity : ℕ)
    (ws : List ℚ) (h : ws.length ≤ 4) :
    applyWeights env s entity ws =
      (s, ⟨⟨ws.getD 0 0, ws.getD 1 0, ws.getD 2 0, ws.getD 3 0⟩, [], []⟩) := by
  rw [applyWeights, if_pos h]

/-- Witness for C3 at the spec's own example `weights = [0.5, 0.5, 0.5]`:
the uniform is exactly `(0.5, 0.5, 0.5, 0)` and no cache entry is created. -/
theorem applyWeights_fast_path_witness :
    (([1/2, 1/2, 1/2] : List ℚ).length ≤ 4)
    ∧ applyWeights envW initialState 0 [1/2, 1/2, 1/2] =
        (initialState, ⟨⟨1/2, 1/2, 1/2, 0⟩, [], []⟩) :=
  ⟨by simp,
   (applyWeights_fast_path envW initialState 0 [1/2, 1/2, 1/2] (by simp)).trans
     (by simp)⟩

/-! ## C9: silent truncation to 255 weights -/

theorem getD_take_eq {α : Type} (l : List α) (d : α) {i n : ℕ} (h : i < n) :
    (l.take n).getD i d = l.getD i d := by
  rw [List.getD_eq_getElem?_getD, List.getD_eq_getElem?_getD,
    List.getElem?_take, if_pos h]

theorem slowUniform_take (ws : List ℚ) :
    slowUniform (ws.take 255) = slowUniform ws := by
  have hclamp : clamped (ws.take 255) = clamped ws := by
    simp [clamped, List.take_take]
  have hsafe : ∀ i : Fin 4,
      (safeIndices (primaryIndices (clamped ws))).get i < 255 :=
    fun i => safeIndices_primary_lt _ (length_clamped_le ws) i
  have h0 : (safeIndices (primaryIndices (clamped ws))).x < 255 := hsafe 0
  have h1 : (safeIndices (primaryIndices (clamped ws))).y < 255 := hsafe 1
  have h2 : (safeIndices (primaryIndices (clamped ws))).z < 255 := hsafe 2
  have h3 : (safeIndices (primaryIndices (clamped ws))).w < 255 := hsafe 3
  simp only [slowUniform, hclamp]
  rw [getD_take_eq ws (0 : ℚ) h0, getD_take_eq ws (0 : ℚ) h1,
    getD_take_eq ws (0 : ℚ) h2, getD_take_eq ws (0 : ℚ) h3]

/-- C9: with more than 255 weights the call behaves exactly as if the weight
array were silently truncated to its first 255 entries — same selection, same
cache key, same cache mutation, same synthesized buffers, same bound handles,
same uniform; no error path exists. -/
theorem applyWeights_truncation (env : Env) (s : CacheState) (entity : ℕ)
    (ws : List ℚ) (h : 255 < ws.length) :
    applyWeights env s entity ws = applyWeights env s entity (ws.take 255) := by
  have hclamp : clamped (ws.take 255) = clamped ws := by
    simp [clamped, List.take_take]
  have hlen : (ws.take 255).length = 255 := by
    rw [List.length_take]
    omega
  rw [applyWeights, applyWeights, if_neg (by omega), if_neg (by omega)]
  rw [slowPath, slowPath, keyOf, keyOf, hclamp, slowUniform_take ws]

/-- Witness for C9 at a 256-entry weight array. -/
theorem applyWeights_truncation_witness :
    (255 < (List.replicate 256 (1 : ℚ)).length)
    ∧ applyWeights envW initialState 3 (List.replicate 256 (1 : ℚ)) =
        applyWeights envW initialState 3 ((List.replicate 256 (1 : ℚ)).take 255) :=
  ⟨by rw [List.length_replicate]; omega,
   applyWeights_truncation envW initialState 3 (List.replicate 256 (1 : ℚ))
     (by rw [List.length_replicate]; omega)⟩

/-! ## The slow path's uniform and cache behaviour -/

theorem morphKeyEqualFn_refl (k : MorphKey) : morphKeyEqualFn k k = true := by
  simp [morphKeyEqualFn]

theorem slowPath_uniform (env : Env) (s : CacheState) (entity : ℕ)
    (ws : List ℚ) : (slowPath env s entity ws).2.uniform = slowUniform ws := by
  rw [slowPath]
  cases hfind : s.table.find? (fun e => morphKeyEqualFn e.1 (keyOf entity ws)) <;>
    simp [hfind]

theorem slowUniform_get (ws : List ℚ) (i : Fin 4) :
    (slowUniform ws).get i =
      ws.getD ((safeIndices (primaryIndices (clamped ws))).get i) 0 := by
  fin_cases i <;> rfl

/-! ## C5: sentinel slots of the uniform report target 0's weight -/

/-- C5: on the `count > 4` path, every sentinel slot of the Primary Index
Tuple is replaced by index 0 before the reduced weight vector is gathered, so
a sentinel slot of the uniform reports the original weight of target 0 and a
non-sentinel slot the original weight of its selected index. -/
theorem applyWeights_safe_substitution (env : Env) (s : CacheState)
    (entity : ℕ) (ws : List ℚ) (h : 4 < ws.length) :
    ∀ i : Fin 4,
      ((primaryIndices (clamped ws)).get i = kUnused →
        ((applyWeights env s entity ws).2.uniform).get i = ws.getD 0 0)
      ∧ ((primaryIndices (clamped ws)).get i ≠ kUnused →
        ((applyWeights env s entity ws).2.uniform).get i =
          ws.getD ((primaryIndices (clamped ws)).get i) 0) := by
  intro i
  have hu : (applyWeights env s entity ws).2.uniform = slowUniform ws := by
    rw [applyWeights, if_neg (by omega)]
    exact slowPath_uniform env s entity ws
  constructor
  · intro hs
    rw [hu, slowUniform_get, safeIndices_get_eq, if_pos hs]
  · intro hs
    rw [hu, slowUniform_get, safeIndices_get_eq, if_neg hs]

/-- Witness for C5 at `weights = [1, 2, 3, 4, 5]`. -/
theorem applyWeights_safe_substitution_witness :
    (4 < ([1, 2, 3, 4, 5] : List ℚ).length)
    ∧ ∀ i : Fin 4,
      ((primaryIndices (clamped [1, 2, 3, 4, 5])).get i = kUnused →
        ((applyWeights envW initialState 9 [1, 2, 3, 4, 5]).2.uniform).get i =
          ([1, 2, 3, 4, 5] : List ℚ).getD 0 0)
      ∧ ((primaryIndices (clamped [1, 2, 3, 4, 5])).get i ≠ kUnused →
        ((applyWeights envW initialState 9 [1, 2, 3, 4, 5]).2.uniform).get i =
          ([1, 2, 3, 4, 5] : List ℚ).getD
            ((primaryIndices (clamped [1, 2, 3, 4, 5])).get i) 0) :=
  ⟨by simp, applyWeights_safe_substitution envW initialState 9 [1, 2, 3, 4, 5]
    (by simp)⟩

/-! ## C2: a repeated call is a cache hit -/

theorem slowPath_second (env : Env) (s : CacheState) (entity : ℕ)
    (ws : List ℚ) :
    slowPath env (slowPath env s entity ws).1 entity ws =
      ((slowPath env s entity ws).1,
       ⟨slowUniform ws, (slowPath env s entity ws).2.bound, []⟩) := by
  cases hfind : s.table.find? (fun e => morphKeyEqualFn e.1 (keyOf entity ws)) with
  | some entry =>
      simp only [slowPath, hfind]
  | none =>
      have hsingle : List.find? (fun e => morphKeyEqualFn e.1 (keyOf entity ws))
          [(keyOf entity ws, createMorphTableEntry env entity s.nextHandle)]
          = some (keyOf entity ws, createMorphTableEntry env entity s.nextHandle) :=
        List.find?_cons_of_pos _ (morphKeyEqualFn_refl _)
      simp only [slowPath, hfind]
      rw [List.find?_append, hfind, Option.none_or, hsingle]

/-- C2: calling `applyWeights` a second time with the same entity and the
same weight array leaves the state unchanged (no new cache entry and no new
vertex buffer: a cache hit), binds exactly the handles bound by the first
call, and sets the same uniform. -/
theorem applyWeights_idempotent (env : Env) (s : CacheState) (entity : ℕ)
    (ws : List ℚ) :
    (applyWeights env (applyWeights env s entity ws).1 entity ws).1
        = (applyWeights env s entity ws).1
    ∧ (applyWeights env (applyWeights env s entity ws).1 entity ws).2.bound
        = (applyWeights env s entity ws).2.bound
    ∧ (applyWeights env (applyWeights env s entity ws).1 entity ws).2.created = []
    ∧ (applyWeights env (applyWeights env s entity ws).1 entity ws).2.uniform
        = (applyWeights env s entity ws).2.uniform := by
  by_cases hlen : ws.length ≤ 4
  · simp [applyWeights, hlen]
  · simp only [applyWeights, if_neg hlen]
    rw [slowPath_second env s entity ws]
    exact ⟨rfl, rfl, rfl, (slowPath_uniform env s entity ws).symm⟩

/-! ## C6: teardown destroys every cached vertex buffer exactly once -/

theorem handlesOf_append (t1 t2 : List (MorphKey × List Primitive)) :
    handlesOf (t1 ++ t2) = handlesOf t1 ++ handlesOf t2 := by
  simp [handlesOf]

theorem createMorphTableEntry_handles (env : Env) (entity firstHandle : ℕ) :
    (createMorphTableEntry env entity firstHandle).map Primitive.vertices
      = (List.range (env.primCount entity)).map (fun pi => firstHandle + pi) := by
  rw [createMorphTableEntry, List.map_map]
  rfl

theorem applyWeights_handles_perm (env : Env) (s : CacheState) (entity : ℕ)
    (ws : List ℚ)
    (hp : List.Perm (handlesOf s.table) (List.range s.nextHandle)) :
    List.Perm (handlesOf (applyWeights env s entity ws).1.table)
      (List.range (applyWeights env s entity ws).1.nextHandle) := by
  by_cases hlen : ws.length ≤ 4
  · simpa [applyWeights, hlen] using hp
  · rw [applyWeights, if_neg hlen]
    cases hfind : s.table.find? (fun e => morphKeyEqualFn e.1 (keyOf entity ws)) with
    | some entry => simpa [slowPath, hfind] using hp
    | none =>
        simp only [slowPath, hfind]
        rw [handlesOf_append, List.range_add]
        refine List.Perm.append hp ?_
        have hv := createMorphTableEntry_handles env entity s.nextHandle
        simp only [handlesOf, List.flatMap_cons, List.flatMap_nil, List.append_nil]
        rw [hv]

theorem runCalls_handles_perm (env : Env) (calls : List (ℕ × List ℚ)) :
    ∀ s : CacheState,
      List.Perm (handlesOf s.table) (List.range s.nextHandle) →
      List.Perm (handlesOf (runCalls env s calls).table)
        (List.range (runCalls env s calls).nextHandle) := by
  induction calls with
  | nil => exact fun s hp => hp
  | cons c rest ih =>
      intro s hp
      obtain ⟨entity, ws⟩ := c
      rw [runCalls]
      exact ih _ (applyWeights_handles_perm env s entity ws hp)

/-- C6: after any session of `applyWeights` calls on a freshly constructed
helper, the handles the destructor passes to `engine->destroy` are a
permutation of all vertex-buffer handles ever created (`0 .. nextHandle-1`)
and contain no duplicate: every created buffer is destroyed exactly once. -/
theorem teardown_destroys_each_handle_once (env : Env)
    (calls : List (ℕ × List ℚ)) :
    List.Perm (destroyList (runCalls env initialState calls))
      (List.range (runCalls env initialState calls).nextHandle)
    ∧ (destroyList (runCalls env initialState calls)).Nodup := by
  have hp := runCalls_handles_perm env calls initialState
    (by simp [initialState, handlesOf])
  exact ⟨hp, hp.nodup_iff.mpr (List.nodup_range _)⟩

/-! ## Synthesizer invariants: slot discipline and dummy uniqueness -/

theorem foldl_preserve {σ α : Type} {P : σ → Prop} {f : σ → α → σ}
    (hf : ∀ st a, P st → P (f st a)) :
    ∀ (l : List α) (st : σ), P st → P (l.foldl f st) := by
  intro l
  induction l with
  | nil => exact fun _ h => h
  | cons a l ih => exact fun st h => ih _ (hf st a h)

theorem slotsOk_push {st : VBState} (d : AttrDecl) (b : BufDesc)
    (h : slotsOk st) : slotsOk (st.push d b) := by
  simp only [slotsOk, VBState.push] at h ⊢
  rw [List.map_append, h, List.range_succ]
  rfl

theorem slotsOk_stepAttr (uvmap : ℕ → UvSet) (st : VBState) (attr : Attribute)
    (h : slotsOk st) : slotsOk (stepAttr uvmap st attr) := by
  obtain ⟨ty, idx, data⟩ := attr
  unfold stepAttr
  cases ty <;> dsimp only <;>
    first
      | exact h
      | exact slotsOk_push (AttrDecl.mk Semantic.tangents st.slot Fmt.short4 0 true)
          (BufDesc.tangentsBuf none) h
      | (repeat' split <;> try exact h) <;> exact slotsOk_push _ _ h

theorem slotsOk_flatNormalsStep (prim : Prim) (st : VBState)
    (h : slotsOk st) : slotsOk (flatNormalsStep prim st) := by
  unfold flatNormalsStep
  repeat' split <;> try exact h
  exact slotsOk_push _ _ h

theorem slotsOk_stepTargetAttr (ordinal targetIndex : ℕ) (st : VBState)
    (attr : Attribute) (h : slotsOk st) :
    slotsOk (stepTargetAttr ordinal targetIndex st attr) := by
  obtain ⟨ty, idx, data⟩ := attr
  unfold stepTargetAttr
  cases ty <;> dsimp only <;>
    first
      | exact h
      | exact slotsOk_push _ _ h

theorem slotsOk_mainState (prim : Prim) (uvmap : ℕ → UvSet) (t : Ubyte4) :
    slotsOk (mainState prim uvmap t) := by
  have hinit : slotsOk initVBState := by
    simp [slotsOk, initVBState]
  have hbase : slotsOk (baseState prim uvmap) :=
    foldl_preserve (slotsOk_stepAttr uvmap) prim.attributes initVBState hinit
  have hflat : slotsOk (flatNormalsStep prim (baseState prim uvmap)) :=
    slotsOk_flatNormalsStep prim _ hbase
  exact foldl_preserve
    (fun st2 p h2 =>
      foldl_preserve (slotsOk_stepTargetAttr p.1 p.2)
        (prim.targets.getD p.2 default).attributes st2 h2)
    (targetsToProcess t) _ hflat

theorem slotsOk_dummyPass (vc : ℕ) (st : VBState) (h : slotsOk st) :
    slotsOk (dummyPass vc st) := by
  unfold dummyPass
  dsimp only
  split
  · simp only [slotsOk] at h ⊢
    rw [List.map_append, h, List.range_succ]
    rfl
  · exact h

theorem dummyFree_push {st : VBState} {d : AttrDecl} {b : BufDesc}
    (hb : b.isDummy = false) (h : dummyFree st) : dummyFree (st.push d b) := by
  simp only [dummyFree, VBState.push] at h ⊢
  rw [List.countP_append, h]
  simp [hb]

theorem dummyFree_stepAttr (uvmap : ℕ → UvSet) (st : VBState)
    (attr : Attribute) (h : dummyFree st) :
    dummyFree (stepAttr uvmap st attr) := by
  obtain ⟨ty, idx, data⟩ := attr
  unfold stepAttr
  cases ty <;> dsimp only <;>
    first
      | exact h
      | exact @dummyFree_push st
          (AttrDecl.mk Semantic.tangents st.slot Fmt.short4 0 true)
          (BufDesc.tangentsBuf none) rfl h
      | (repeat' split <;> try exact h) <;> exact dummyFree_push rfl h

theorem dummyFree_flatNormalsStep (prim : Prim) (st : VBState)
    (h : dummyFree st) : dummyFree (flatNormalsStep prim st) := by
  unfold flatNormalsStep
  repeat' split <;> try exact h
  exact dummyFree_push rfl h

theorem dummyFree_stepTargetAttr (ordinal targetIndex : ℕ) (st : VBState)
    (attr : Attribute) (h : dummyFree st) :
    dummyFree (stepTargetAttr ordinal targetIndex st attr) := by
  obtain ⟨ty, idx, data⟩ := attr
  unfold stepTargetAttr
  cases ty <;> dsimp only <;>
    first
      | exact h
      | exact dummyFree_push rfl h

theorem dummyFree_mainState (prim : Prim) (uvmap : ℕ → UvSet) (t : Ubyte4) :
    dummyFree (mainState prim uvmap t) := by
  have hinit : dummyFree initVBState := by
    simp [dummyFree, initVBState]
  have hbase : dummyFree (baseState prim uvmap) :=
    foldl_preserve (dummyFree_stepAttr uvmap) prim.attributes initVBState hinit
  have hflat : dummyFree (flatNormalsStep prim (baseState prim uvmap)) :=
    dummyFree_flatNormalsStep prim _ hbase
  exact foldl_preserve
    (fun st2 p h2 =>
      foldl_preserve (dummyFree_stepTargetAttr p.1 p.2)
        (prim.targets.getD p.2 default).attributes st2 h2)
    (targetsToProcess t) _ hflat

/-! ## C7 (amended): one shared dummy buffer for the missing attributes -/

theorem dummyPass_spec (vc : ℕ) (st : VBState) (hdf : dummyFree st) :
    ((dummyPass vc st).bufs.countP (fun p => p.2.isDummy)
        = if needsDummy st then 1 else 0)
    ∧ (if needsDummy st then
        (st.slot, BufDesc.dummyBuf (dummyBytes vc)) ∈ (dummyPass vc st).bufs
       else True)
    ∧ (if st.hasUv0 then True
       else AttrDecl.mk Semantic.uv0 st.slot Fmt.ushort2 0 true
          ∈ (dummyPass vc st).decls)
    ∧ (if st.hasUv1 then True
       else AttrDecl.mk Semantic.uv1 st.slot Fmt.ushort2 0 true
          ∈ (dummyPass vc st).decls)
    ∧ (if st.hasVertexColor then True
       else AttrDecl.mk Semantic.color st.slot Fmt.ubyte4fmt 0 true
          ∈ (dummyPass vc st).decls) := by
  rw [dummyFree] at hdf
  by_cases h0 : st.hasUv0 <;> by_cases h1 : st.hasUv1 <;>
    by_cases h2 : st.hasVertexColor <;>
    simp [dummyPass, needsDummy, h0, h1, h2, List.countP_append, hdf,
      BufDesc.isDummy] <;>
    (intro a b hb
     simpa [BufDesc.isDummy] using List.countP_eq_zero.mp hdf (a, b) hb)

/-- C7 amended: after the fallback pass, exactly one dummy buffer descriptor
is present when any of UV0/UV1/vertex color was missing (none otherwise); the
dummy is `memset` to `0xff` (not zero-filled) and is assigned to the single
slot at which every missing attribute among UV0, UV1 and COLOR was declared,
so all missing attributes share it. -/
theorem dummy_buffer_policy (prim : Prim) (uvmap : ℕ → UvSet) (t : Ubyte4) :
    ((createVertexBufferModel prim uvmap t).bufs.countP (fun p => p.2.isDummy)
        = if needsDummy (mainState prim uvmap t) then 1 else 0)
    ∧ (if needsDummy (mainState prim uvmap t) then
        ((mainState prim uvmap t).slot,
          BufDesc.dummyBuf (dummyBytes (vertexCountOf prim)))
          ∈ (createVertexBufferModel prim uvmap t).bufs
       else True)
    ∧ (if (mainState prim uvmap t).hasUv0 then True
       else AttrDecl.mk Semantic.uv0 (mainState prim uvmap t).slot Fmt.ushort2 0 true
          ∈ (createVertexBufferModel prim uvmap t).decls)
    ∧ (if (mainState prim uvmap t).hasUv1 then True
       else AttrDecl.mk Semantic.uv1 (mainState prim uvmap t).slot Fmt.ushort2 0 true
          ∈ (createVertexBufferModel prim uvmap t).decls)
    ∧ (if (mainState prim uvmap t).hasVertexColor then True
       else AttrDecl.mk Semantic.color (mainState prim uvmap t).slot Fmt.ubyte4fmt 0 true
          ∈ (createVertexBufferModel prim uvmap t).decls) :=
  dummyPass_spec (vertexCountOf prim) (mainState prim uvmap t)
    (dummyFree_mainState prim uvmap t)

/-- Counterexample to C7 as stated: the shared dummy buffer is not
zero-filled.  For a primitive with one POSITION attribute (one vertex) the
pass allocates exactly one dummy whose bytes are all `0xff = 255`, and an
all-`0xff` buffer is not the all-zero buffer. -/
theorem dummy_zero_fill_cex :
    ((createVertexBufferModel primC7 uvAllUnused tSentinel).bufs.countP
        (fun p => p.2.isDummy) = 1)
    ∧ (1, BufDesc.dummyBuf [255, 255, 255, 255])
        ∈ (createVertexBufferModel primC7 uvAllUnused tSentinel).bufs
    ∧ ([255, 255, 255, 255] : List ℕ) ≠ List.replicate 4 0 := by
  decide

/-! ## C8 (amended): slot indices are consecutive and unchecked -/

/-- C8 amended: the synthesizer assigns `buffers[]` slots consecutively from
0, so the final `bufferCount` bounds every slot index used; slot indices stay
below the fixed `kMaxBufferCount` exactly for inputs needing at most that
many slots — the code itself contains no check against the maximum. -/
theorem slot_assignment_discipline (prim : Prim) (uvmap : ℕ → UvSet)
    (t : Ubyte4) :
    ((createVertexBufferModel prim uvmap t).bufs.map Prod.fst
        = List.range (createVertexBufferModel prim uvmap t).bufferCount)
    ∧ ∀ p ∈ (createVertexBufferModel prim uvmap t).bufs,
        p.1 < (createVertexBufferModel prim uvmap t).bufferCount := by
  have hm : slotsOk (dummyPass (vertexCountOf prim) (mainState prim uvmap t)) :=
    slotsOk_dummyPass _ _ (slotsOk_mainState prim uvmap t)
  refine ⟨hm, ?_⟩
  intro p hp
  have hmem : p.1 ∈ (createVertexBufferModel prim uvmap t).bufs.map Prod.fst :=
    List.mem_map_of_mem Prod.fst hp
  have hrange := hm
  rw [slotsOk] at hrange
  rw [show (createVertexBufferModel prim uvmap t).bufs.map Prod.fst
      = List.range (createVertexBufferModel prim uvmap t).bufferCount from hrange]
    at hmem
  exact List.mem_range.mp hmem

/-- Counterexample to C8 as stated: a valid primitive with 17 directly bound
attributes drives the slot counter past `kMaxBufferCount = 16` — the
synthesizer performs no check, completes normally, and writes a descriptor at
slot 17 (and the dummy at that slot), i.e. the overflow is silently
tolerated rather than treated as a detected fatal error. -/
theorem slot_overflow_cex :
    kMaxBufferCount = 16
    ∧ (createVertexBufferModel primC8 uvAllUnused tSentinel).bufferCount = 18
    ∧ (17, BufDesc.dummyBuf (dummyBytes 1))
        ∈ (createVertexBufferModel primC8 uvAllUnused tSentinel).bufs := by
  decide

/-! ## Properties of the partial sort and the primary-index scan -/

theorem length_sortedDesc (l : List ℚ) : (sortedDesc l).length = l.length :=
  List.length_insertionSort _ l

theorem sortedDesc_sorted (l : List ℚ) :
    (sortedDesc l).Sorted (fun a b => b ≤ a) :=
  List.sorted_insertionSort _ l

theorem sortedDesc_perm (l : List ℚ) : (sortedDesc l).Perm l :=
  List.perm_insertionSort _ l

theorem paddedSorted_eq {l : List ℚ} (h : 4 ≤ l.length) :
    paddedSorted l = sortedDesc l := by
  rw [paddedSorted, length_sortedDesc, Nat.sub_eq_zero_of_le h,
    List.replicate_zero, List.append_nil]

theorem frontVals_ge {l : List ℚ} (h : 4 < l.length) :
    ∀ v ∈ frontVals l, (sortedDesc l).getD 3 0 ≤ v := by
  have hs : 4 < (sortedDesc l).length := by
    rw [length_sortedDesc]
    exact h
  have hsort := sortedDesc_sorted l
  intro v hv
  have hrel : ∀ k : ℕ, (hk : k < 4) →
      (sortedDesc l).getD 3 0 ≤ (sortedDesc l).getD k 0 := by
    intro k hk
    rw [List.getD_eq_getElem _ _ (by omega), List.getD_eq_getElem _ _ (by omega)]
    rcases Nat.lt_or_ge k 3 with hk3 | hk3
    · have := hsort.rel_get_of_lt
        (show (⟨k, by omega⟩ : Fin (sortedDesc l).length) < ⟨3, by omega⟩ from hk3)
      simpa using this
    · have : k = 3 := by omega
      subst this
      exact le_refl _
  rw [frontVals, paddedSorted_eq (le_of_lt h)] at hv
  simp only [List.mem_cons, List.not_mem_nil, or_false] at hv
  rcases hv with rfl | rfl | rfl | rfl
  · exact hrel 0 (by omega)
  · exact hrel 1 (by omega)
  · exact hrel 2 (by omega)
  · exact hrel 3 (by omega)

theorem notin_frontVals_le {l : List ℚ} (h : 4 < l.length) {w : ℚ}
    (hw : w ∈ l) (hnf : w ∉ frontVals l) : w ≤ (sortedDesc l).getD 3 0 := by
  have hs : 4 < (sortedDesc l).length := by
    rw [length_sortedDesc]
    exact h
  have hsort := sortedDesc_sorted l
  have hw2 : w ∈ sortedDesc l := (sortedDesc_perm l).mem_iff.mpr hw
  obtain ⟨⟨m, hm⟩, hget⟩ := List.mem_iff_get.mp hw2
  rcases Nat.lt_or_ge m 4 with hm4 | hm4
  · exfalso
    apply hnf
    rw [frontVals, paddedSorted_eq (le_of_lt h)]
    have hval : w = (sortedDesc l).getD m 0 := by
      rw [List.getD_eq_getElem _ _ hm, ← hget]
      simp [List.get_eq_getElem]
    interval_cases m <;> simp [hval]
  · have := hsort.rel_get_of_lt
      (show (⟨3, by omega⟩ : Fin (sortedDesc l).length) < ⟨m, hm⟩ from by
        simp [Fin.lt_def]
        omega)
    rw [List.getD_eq_getElem _ _ (by omega)]
    calc w = (sortedDesc l).get ⟨m, hm⟩ := hget.symm
    _ ≤ (sortedDesc l).get ⟨3, by omega⟩ := this
    _ = (sortedDesc l)[3] := by simp [List.get_eq_getElem]

theorem qualifies_iff (l : List ℚ) (i : ℕ) :
    qualifies l i = true ↔ (0 < l.getD i 0 ∧ l.getD i 0 ∈ frontVals l) := by
  simp [qualifies]

theorem tupleOfList_get (L : List ℕ) (i : Fin 4) :
    (tupleOfList L).get i = L.getD i.val kUnused := by
  fin_cases i <;> rfl

theorem nonSentinelCount_tupleOfList (L : List ℕ) (hlen : L.length ≤ 4)
    (hmem : ∀ x ∈ L, x ≠ 255) :
    nonSentinelCount (tupleOfList L) = L.length := by
  rcases L with _ | ⟨a, _ | ⟨b, _ | ⟨c, _ | ⟨d, rest⟩⟩⟩⟩
  · decide
  · have ha := hmem a (by simp)
    simp [nonSentinelCount, tupleOfList, kUnused, List.countP_cons, ha]
  · have ha := hmem a (by simp)
    have hb := hmem b (by simp)
    simp [nonSentinelCount, tupleOfList, kUnused, List.countP_cons, ha, hb]
  · have ha := hmem a (by simp)
    have hb := hmem b (by simp)
    have hc := hmem c (by simp)
    simp [nonSentinelCount, tupleOfList, kUnused, List.countP_cons, ha, hb, hc]
  · have hrest : rest = [] := by
      simp only [List.length_cons] at hlen
      exact List.eq_nil_of_length_eq_zero (by omega)
    subst hrest
    have ha := hmem a (by simp)
    have hb := hmem b (by simp)
    have hc := hmem c (by simp)
    have hd := hmem d (by simp)
    simp [nonSentinelCount, tupleOfList, kUnused, List.countP_cons, ha, hb, hc, hd]

/-! ## C1: what the selection really guarantees -/

/-- Counterexample to C1 as stated.  With `weights = [0, 0, 0, 0, 1]`
(count 5) only one index qualifies, so the tuple has 1 non-sentinel entry,
not `min(4, count) = 4`.  With `weights = [2, 2, 2, 5, 5, 5]` (count 6) the
scan places index 0 (weight 2) and leaves index 4 (weight 5) out, so a
placed index's weight is not >= every non-placed index's weight. -/
theorem primary_selection_cex :
    (nonSentinelCount (primaryIndices (clamped [0, 0, 0, 0, 1])) = 1
      ∧ min 4 ([0, 0, 0, 0, 1] : List ℚ).length = 4)
    ∧ (0 ∈ primaryIndexList (clamped [2, 2, 2, 5, 5, 5])
      ∧ 4 ∉ primaryIndexList (clamped [2, 2, 2, 5, 5, 5])
      ∧ (4 : ℕ) < ([2, 2, 2, 5, 5, 5] : List ℚ).length
      ∧ ¬ (([2, 2, 2, 5, 5, 5] : List ℚ).getD 4 0
            ≤ ([2, 2, 2, 5, 5, 5] : List ℚ).getD 0 0)) := by
  decide

/-- C1 amended: for count > 4 (after clamping to 255) the Primary Index
Tuple's non-sentinel entries are contiguous from the front and number exactly
`min(4, q)`, where `q` is the number of indices that qualify in the scan
(strictly positive weight equal to one of the four front values of the
partial sort); every placed index has strictly positive weight equal to one
of those four front values, and every placed index's weight is >= the weight
of every index whose weight is not among the four front values. -/
theorem primary_selection_amended (ws : List ℚ) (h : 4 < ws.length) :
    (nonSentinelCount (primaryIndices (clamped ws))
        = min 4 (qualIndices (clamped ws)).length)
    ∧ (∀ i j : Fin 4, i ≤ j →
        (primaryIndices (clamped ws)).get i = kUnused →
        (primaryIndices (clamped ws)).get j = kUnused)
    ∧ (∀ i ∈ primaryIndexList (clamped ws),
        0 < (clamped ws).getD i 0
          ∧ (clamped ws).getD i 0 ∈ frontVals (clamped ws))
    ∧ (∀ i ∈ primaryIndexList (clamped ws), ∀ j < (clamped ws).length,
        (clamped ws).getD j 0 ∉ frontVals (clamped ws) →
        (clamped ws).getD j 0 ≤ (clamped ws).getD i 0) := by
  have hc : 4 < (clamped ws).length := by
    rw [clamped, List.length_take]
    omega
  have hc255 : (clamped ws).length ≤ 255 := length_clamped_le ws
  have hmin : min 4 (clamped ws).length = 4 := by omega
  have hPL : primaryIndexList (clamped ws) = (qualIndices (clamped ws)).take 4 := by
    rw [primaryIndexList, hmin]
  have hmemlt : ∀ x ∈ primaryIndexList (clamped ws), x ≠ 255 := by
    intro x hx
    have := mem_primaryIndexList_lt hx
    omega
  refine ⟨?_, ?_, ?_, ?_⟩
  · have hlen4 : (primaryIndexList (clamped ws)).length ≤ 4 := by
      rw [hPL]
      exact List.length_take_le 4 _
    rw [primaryIndices, nonSentinelCount_tupleOfList _ hlen4 hmemlt, hPL,
      List.length_take]
  · intro i j hij hi
    rw [primaryIndices, tupleOfList_get] at hi ⊢
    have hLi : (primaryIndexList (clamped ws)).length ≤ i.val := by
      by_contra hh
      push_neg at hh
      rw [List.getD_eq_getElem _ _ hh] at hi
      exact hmemlt _ (List.getElem_mem hh) hi
    exact List.getD_eq_default _ _ (le_trans hLi hij)
  · intro i hi
    exact (qualifies_iff _ _).mp (List.of_mem_filter (List.take_subset _ _ hi))
  · intro i hi j hj hnf
    have hq := (qualifies_iff _ _).mp (List.of_mem_filter (List.take_subset _ _ hi))
    have hwj : (clamped ws).getD j 0 ∈ clamped ws := by
      rw [List.getD_eq_getElem _ _ hj]
      exact List.getElem_mem hj
    calc (clamped ws).getD j 0
        ≤ (sortedDesc (clamped ws)).getD 3 0 := notin_frontVals_le hc hwj hnf
      _ ≤ (clamped ws).getD i 0 := frontVals_ge hc _ hq.2

/-- Witness for the amended C1 at `weights = [1, 2, 3, 4, 5]`. -/
theorem primary_selection_amended_witness :
    (4 < ([1, 2, 3, 4, 5] : List ℚ).length)
    ∧ ((nonSentinelCount (primaryIndices (clamped [1, 2, 3, 4, 5]))
        = min 4 (qualIndices (clamped [1, 2, 3, 4, 5])).length)
    ∧ (∀ i j : Fin 4, i ≤ j →
        (primaryIndices (clamped [1, 2, 3, 4, 5])).get i = kUnused →
        (primaryIndices (clamped [1, 2, 3, 4, 5])).get j = kUnused)
    ∧ (∀ i ∈ primaryIndexList (clamped [1, 2, 3, 4, 5]),
        0 < (clamped [1, 2, 3, 4, 5]).getD i 0
          ∧ (clamped [1, 2, 3, 4, 5]).getD i 0
              ∈ frontVals (clamped [1, 2, 3, 4, 5]))
    ∧ (∀ i ∈ primaryIndexList (clamped [1, 2, 3, 4, 5]),
        ∀ j < (clamped [1, 2, 3, 4, 5]).length,
        (clamped [1, 2, 3, 4, 5]).getD j 0 ∉ frontVals (clamped [1, 2, 3, 4, 5]) →
        (clamped [1, 2, 3, 4, 5]).getD j 0
          ≤ (clamped [1, 2, 3, 4, 5]).getD i 0)) :=
  ⟨by simp, primary_selection_amended [1, 2, 3, 4, 5] (by simp)⟩

/-! ## C10: the tuple is the canonical form of the qualifying-index set -/

theorem qualIndices_sorted (l : List ℚ) :
    (qualIndices l).Sorted (fun a b : ℕ => a < b) :=
  List.Pairwise.sublist (List.filter_sublist _) (List.pairwise_lt_range _)

theorem qualIndices_nodup (l : List ℚ) : (qualIndices l).Nodup :=
  List.Nodup.filter _ (List.nodup_range _)

/-- C10: the qualifying-index scan emits indices in strictly increasing
order, so the non-sentinel prefix of the Primary Index Tuple is strictly
increasing; consequently the tuple is a canonical representation of the
qualifying-index set — two weight arrays (each with count > 4 after
clamping) whose sets of qualifying indices coincide produce
componentwise-equal tuples, which is the determinism the cache key relies
on. -/
theorem primary_tuple_canonical (ws1 ws2 : List ℚ)
    (h1 : 4 < ws1.length) (h2 : 4 < ws2.length)
    (hset : (qualIndices (clamped ws1)).toFinset
        = (qualIndices (clamped ws2)).toFinset) :
    (∀ i j : Fin 4, i < j →
        (primaryIndices (clamped ws1)).get j ≠ kUnused →
        (primaryIndices (clamped ws1)).get i
          < (primaryIndices (clamped ws1)).get j)
    ∧ primaryIndices (clamped ws1) = primaryIndices (clamped ws2) := by
  constructor
  · intro i j hij hj
    have hsorted : (primaryIndexList (clamped ws1)).Sorted (fun a b : ℕ => a < b) :=
      List.Pairwise.sublist (List.take_sublist _ _) (qualIndices_sorted _)
    rw [primaryIndices, tupleOfList_get] at hj ⊢
    rw [tupleOfList_get]
    have hjlen : j.val < (primaryIndexList (clamped ws1)).length := by
      by_contra hh
      push_neg at hh
      rw [List.getD_eq_default _ _ hh] at hj
      exact hj rfl
    have hilen : i.val < (primaryIndexList (clamped ws1)).length :=
      lt_trans hij hjlen
    rw [List.getD_eq_getElem _ _ hilen, List.getD_eq_getElem _ _ hjlen]
    have := hsorted.rel_get_of_lt
      (show (⟨i.val, hilen⟩ : Fin (primaryIndexList (clamped ws1)).length)
          < ⟨j.val, hjlen⟩ from hij)
    simpa [List.get_eq_getElem] using this
  · have heq : qualIndices (clamped ws1) = qualIndices (clamped ws2) := by
      refine List.eq_of_perm_of_sorted ?_ (qualIndices_sorted _)
        (qualIndices_sorted _)
      refine (List.perm_ext_iff_of_nodup (qualIndices_nodup _)
        (qualIndices_nodup _)).mpr ?_
      intro a
      rw [← List.mem_toFinset, ← List.mem_toFinset, hset]
    have hmin1 : min 4 (clamped ws1).length = 4 := by
      have : 4 < (clamped ws1).length := by
        rw [clamped, List.length_take]
        omega
      omega
    have hmin2 : min 4 (clamped ws2).length = 4 := by
      have : 4 < (clamped ws2).length := by
        rw [clamped, List.length_take]
        omega
      omega
    rw [primaryIndices, primaryIndices, primaryIndexList, primaryIndexList,
      hmin1, hmin2, heq]

/-- Witness for C10: `[1, 2, 3, 4, 5]` and `[0, 9, 8, 7, 6]` have the same
qualifying-index set `{1, 2, 3, 4}` and produce the same tuple. -/
theorem primary_tuple_canonical_witness :
    (4 < ([1, 2, 3, 4, 5] : List ℚ).length)
    ∧ (4 < ([0, 9, 8, 7, 6] : List ℚ).length)
    ∧ ((qualIndices (clamped [1, 2, 3, 4, 5])).toFinset
        = (qualIndices (clamped [0, 9, 8, 7, 6])).toFinset)
    ∧ ((∀ i j : Fin 4, i < j →
        (primaryIndices (clamped [1, 2, 3, 4, 5])).get j ≠ kUnused →
        (primaryIndices (clamped [1, 2, 3, 4, 5])).get i
          < (primaryIndices (clamped [1, 2, 3, 4, 5])).get j)
    ∧ primaryIndices (clamped [1, 2, 3, 4, 5])
        = primaryIndices (clamped [0, 9, 8, 7, 6])) :=
  ⟨by simp, by simp, by decide,
   primary_tuple_canonical [1, 2, 3, 4, 5] [0, 9, 8, 7, 6] (by simp) (by simp)
     (by decide)⟩

end Gltfio
